import Mathlib

/-!
# Verification of the disco-sui Document Mutation Engine

Shallow embedding of the vault tools found under `src/lib/tools` and the
agent pipeline (`BaseAgent`), together with theorems settling the frozen
claims about the natural-language specification.

Strings are modelled as `List Char`; file systems as association lists from
paths to contents.  JavaScript `Set` semantics (insertion order, keep-first
deduplication) are modelled explicitly.  Regex-based replacements are
translated to left-to-right scanning functions that mirror the concrete
regular expressions appearing in the source (the embedding assumes link
identifiers contain no regex metacharacters, which holds for all inputs
considered here).
-/

/-- JavaScript `\s` (ASCII fragment): whitespace characters recognised by
the `/\s+/g` replacement inside `pathToWikiLink`. -/
def isJsSpace (c : Char) : Bool :=
  c = ' ' || c = '\t' || c = '\n' || c = '\r' || c = '\x0b' || c = '\x0c'

/-- Strip a trailing `.md` extension, case-insensitively: the
`filePath.replace(/\.md$/i, '')` step of `pathToWikiLink`
(NoteMoveAndRenameTool.ts line 108, FolderOperationTool.ts line 160). -/
def stripMdExt (s : List Char) : List Char :=
  match s.reverse with
  | d :: m :: dot :: rest =>
    if (d = 'd' || d = 'D') && (m = 'm' || m = 'M') && dot = '.' then
      rest.reverse
    else s
  | _ => s

/-- Split a character list on `/`, the `split('/')` step of
`pathToWikiLink`.  The result is never empty. -/
def splitSlash : List Char → List (List Char)
  | [] => [[]]
  | c :: rest =>
    match splitSlash rest with
    | [] => if c = '/' then [[], []] else [[c]]
    | h :: t => if c = '/' then [] :: h :: t else (c :: h) :: t

/-- Replace every maximal run of whitespace by a single `_`: the
`part.replace(/\s+/g, '_')` step of `pathToWikiLink`.  The flag records
whether we are inside a whitespace run. -/
def collapseWsAux (inRun : Bool) : List Char → List Char
  | [] => []
  | c :: rest =>
    if isJsSpace c then
      if inRun then collapseWsAux true rest
      else '_' :: collapseWsAux true rest
    else c :: collapseWsAux false rest

/-- Whitespace substitution on one path segment. -/
def collapseWs (s : List Char) : List Char := collapseWsAux false s

/-- Join path segments with `/`: the final `join('/')` of `pathToWikiLink`. -/
def joinSlash : List (List Char) → List Char
  | [] => []
  | [x] => x
  | x :: y :: t => x ++ '/' :: joinSlash (y :: t)

/-- Model of `pathToWikiLink` (identical private helper in NoteMoveAndRenameTool.ts
lines 106–112 and FolderOperationTool.ts lines 158–164): strip the `.md`
extension, split on `/`, replace whitespace runs by `_` in each segment,
re-join with `/`. -/
def pathToWikiLink (p : List Char) : List Char :=
  joinSlash ((splitSlash (stripMdExt p)).map collapseWs)

/-- Attempt to match the regex `\[\[old(\|[^\]]*)?\]\]` at the head of `s`
(NoteMoveAndRenameTool.ts line 77).  On success, return the alias group
(`$1`: either empty or `|` followed by the alias text) and the remainder of
the input after the match. -/
def matchNoteLink (old : List Char) (s : List Char) : Option (List Char × List Char) :=
  match s with
  | '[' :: '[' :: t =>
    if old.isPrefixOf t then
      match t.drop old.length with
      | ']' :: ']' :: r => some ([], r)
      | '|' :: w =>
        match w.dropWhile (fun c => !(c = ']')) with
        | ']' :: ']' :: r => some ('|' :: w.takeWhile (fun c => !(c = ']')), r)
        | _ => none
      | _ => none
    else none
  | _ => none

/-- Left-to-right global replacement of `\[\[old(\|[^\]]*)?\]\]` by
`[[new$1]]`, as performed by `content.replace(...)` in
`NoteMoveAndRenameTool.updateLinksInVault` (lines 76–79).  `fuel` bounds
recursion; it is instantiated with the input length, which always
suffices since every step consumes at least one character. -/
def rewriteNoteGo (old new : List Char) : Nat → List Char → List Char
  | _, [] => []
  | 0, s => s
  | fuel + 1, c :: rest =>
    match matchNoteLink old (c :: rest) with
    | some (al, r) => '[' :: '[' :: (new ++ al ++ ']' :: ']' :: rewriteNoteGo old new fuel r)
    | none => c :: rewriteNoteGo old new fuel rest

/-- The full body rewrite performed on each vault file by
`NoteMoveAndRenameTool.updateLinksInVault`. -/
def rewriteNoteLinks (old new s : List Char) : List Char :=
  rewriteNoteGo old new s.length s

/-- Attempt to match the regex `\[\[old[^\]]*\]\]` at the head of `s`
(FolderOperationTool.ts line 129).  On success return the whole matched
text and the remainder. -/
def matchFolderLink (old : List Char) (s : List Char) : Option (List Char × List Char) :=
  match s with
  | '[' :: '[' :: t =>
    if old.isPrefixOf t then
      match (t.drop old.length).dropWhile (fun c => !(c = ']')) with
      | ']' :: ']' :: r =>
        some ('[' :: '[' :: (old ++ (t.drop old.length).takeWhile (fun c => !(c = ']')) ++ [']', ']']), r)
      | _ => none
    else none
  | _ => none

/-- Model of `match.replace(oldPattern, newPattern)`: with a *string* pattern it replaces
only the first occurrence (FolderOperationTool.ts line 130). -/
def replaceFirst (pat rep : List Char) (s : List Char) : List Char :=
  match s with
  | [] => if pat = [] then rep else []
  | c :: rest =>
    if pat.isPrefixOf (c :: rest) then rep ++ (c :: rest).drop pat.length
    else c :: replaceFirst pat rep rest

/-- Left-to-right global replacement of `\[\[old[^\]]*\]\]` where each match
is rewritten by replacing its first occurrence of `old` with `new`, as in
`FolderOperationTool.updateLinksInVault` (lines 128–131). -/
def rewriteFolderGo (old new : List Char) : Nat → List Char → List Char
  | _, [] => []
  | 0, s => s
  | fuel + 1, c :: rest =>
    match matchFolderLink old (c :: rest) with
    | some (m, r) => replaceFirst old new m ++ rewriteFolderGo old new fuel r
    | none => c :: rewriteFolderGo old new fuel rest

/-- The full body rewrite performed on each vault file by
`FolderOperationTool.updateLinksInVault`. -/
def rewriteFolderLinks (old new s : List Char) : List Char :=
  rewriteFolderGo old new s.length s


/-- Keep-first deduplication: the contents, in iteration order, of the
JavaScript `new Set(array)` built by the tag tool
(TagManagementTool, `new Set(frontmatter.tags || [])`). -/
def jsSetFromList : List String → List String
  | [] => []
  | x :: rest => x :: (jsSetFromList rest).filter (fun y => !(y = x))

/-- JavaScript `set.delete(x)` on a duplicate-free insertion-ordered set. -/
def jsSetDelete (s : List String) (x : String) : List String :=
  s.filter (fun y => !(y = x))

/-- JavaScript `set.add(x)`: appends at the end of the iteration order if
absent, otherwise leaves the set unchanged. -/
def jsSetAdd (s : List String) (x : String) : List String :=
  if x ∈ s then s else s ++ [x]

/-- The slice of a note's frontmatter and body that the vault tools
manipulate: `title`, `tags`, the `modified` timestamp (modelled as a
natural number), and the body text. -/
structure NoteDoc where
  title : String
  tags : List String
  modified : Nat
  body : String
deriving DecidableEq, Repr

/-- One iteration of `TagManagementTool.renameTag`'s loop on holding a
document (part_001 lines 116–132): build the `Set` of its tags; if the old
tag is present, delete it, add the new tag, stamp `modified := now` and
write; otherwise leave the document untouched.  The boolean records whether
the document was written. -/
def renameTagDoc (old new : String) (now : Nat) (d : NoteDoc) : NoteDoc × Bool :=
  let s := jsSetFromList d.tags
  if old ∈ s then
    ({ d with tags := jsSetAdd (jsSetDelete s old) new, modified := now }, true)
  else (d, false)

/-- One iteration of `TagManagementTool.addTag`'s loop (part_001 lines
52–68): insert the tag if absent, stamping `modified`; documents already
carrying the tag are skipped. -/
def addTagDoc (tag : String) (now : Nat) (d : NoteDoc) : NoteDoc × Bool :=
  let s := jsSetFromList d.tags
  if tag ∈ s then (d, false)
  else ({ d with tags := jsSetAdd s tag, modified := now }, true)

/-- One iteration of `TagManagementTool.removeTag`'s loop (part_001 lines
84–100). -/
def removeTagDoc (tag : String) (now : Nat) (d : NoteDoc) : NoteDoc × Bool :=
  let s := jsSetFromList d.tags
  if tag ∈ s then ({ d with tags := jsSetDelete s tag, modified := now }, true)
  else (d, false)

/-- Parameters of `NoteUpdateTool.execute`; `none` models an absent field. -/
structure NoteUpdateParams where
  title : Option String
  content : Option String
  tags : Option (List String)
deriving Repr

/-- JavaScript `x || dflt` for a possibly-absent string: the empty string is
falsy, so it also falls back to the default. -/
def jsOrStr : Option String → String → String
  | some t, dflt => if t = "" then dflt else t
  | none, dflt => dflt

/-- JavaScript `x || dflt` for a possibly-absent array: arrays, including
the empty array, are truthy. -/
def jsOrList : Option (List String) → List String → List String
  | some l, _ => l
  | none, dflt => dflt

/-- Model of `NoteUpdateTool.execute` (NoteUpdateTool.ts lines 31–48): merge the
supplied fields over the document on disk using JavaScript `||` defaulting,
stamp `modified := now`, and write the result back.  The supplied `tags`
array is stored verbatim. -/
def noteUpdate (p : NoteUpdateParams) (now : Nat) (d : NoteDoc) : NoteDoc :=
  { title := jsOrStr p.title d.title
    tags := jsOrList p.tags d.tags
    modified := now
    body := jsOrStr p.content d.body }

/-- A vault directory together with the set of paths whose read throws an
I/O error, modelling `fs.readFile` failures. -/
structure VaultFS where
  files : List (String × NoteDoc)
  failing : List String
deriving Repr

/-- Model of `fs.readFile` plus frontmatter parse of one note: `none` models a thrown
exception. -/
def readNote (fs : VaultFS) (p : String) : Option NoteDoc :=
  if p ∈ fs.failing then none else fs.files.lookup p

/-- Model of `fs.writeFile` of one note (path assumed present). -/
def writeNote (fs : VaultFS) (p : String) (d : NoteDoc) : VaultFS :=
  { fs with files := fs.files.map (fun e => if e.1 = p then (p, d) else e) }

/-- The `for (const file of files)` loop of `TagManagementTool.addTag`
(part_001 lines 52–68).  A read failure throws: the loop stops at the
failing file, earlier writes stay committed, the remaining files are never
examined, and the error propagates (third component `true`).  On success
the second component lists the updated paths in order. -/
def addTagRun (tag : String) (now : Nat) (fs : VaultFS) :
    List String → VaultFS × List String × Bool
  | [] => (fs, [], false)
  | p :: rest =>
    match readNote fs p with
    | none => (fs, [], true)
    | some d =>
      let (d', w) := addTagDoc tag now d
      let fs' := if w then writeNote fs p d' else fs
      let (fs'', upd, err) := addTagRun tag now fs' rest
      (fs'', (if w then [p] else []) ++ upd, err)

/-- The loop of `TagManagementTool.renameTag` over all vault files
(part_001 lines 116–133), with the same exception behaviour as `addTagRun`. -/
def renameTagRun (old new : String) (now : Nat) (fs : VaultFS) :
    List String → VaultFS × List String × Bool
  | [] => (fs, [], false)
  | p :: rest =>
    match readNote fs p with
    | none => (fs, [], true)
    | some d =>
      let (d', w) := renameTagDoc old new now d
      let fs' := if w then writeNote fs p d' else fs
      let (fs'', upd, err) := renameTagRun old new now fs' rest
      (fs'', (if w then [p] else []) ++ upd, err)

/-- Normalisation step of Node's `path.join`: fold the segments, with the
accumulator kept in reverse order.  `""` and `"."` segments vanish; `".."`
pops the previous segment, except that at the root of an absolute path it
vanishes and at the head of a relative path it is kept. -/
def normSegStep (isAbs : Bool) (acc : List (List Char)) (seg : List Char) : List (List Char) :=
  if seg = [] || seg = ['.'] then acc
  else if seg = ['.', '.'] then
    match acc with
    | [] => if isAbs then [] else [seg]
    | a :: rest => if a = ['.', '.'] then seg :: a :: rest else rest
  else seg :: acc

/-- Node `path.join(a, b)` as used by every tool (`path.join(this.vaultPath,
relativePath)`): concatenate with a separator, then normalise `.` and `..`
segments.  An absolute result keeps its leading `/`; an empty relative
result collapses to `"."`. -/
def joinPathL (a b : List Char) : List Char :=
  let isAbs : Bool := match a with | '/' :: _ => true | _ => false
  let segs := splitSlash (a ++ '/' :: b)
  let body := joinSlash (segs.foldl (normSegStep isAbs) []).reverse
  if isAbs then '/' :: body else if body = [] then ['.'] else body

/-- String-level wrapper of `joinPathL`. -/
def joinPath (a b : String) : String := ⟨joinPathL a.data b.data⟩

/-- Whether `p` lies strictly inside the directory `root`. -/
def isUnder (root p : String) : Bool :=
  (root ++ "/").data.isPrefixOf p.data

/-- Model of `NoteDeletionTool.execute` (FolderOperationTool.ts bundle, lines
182–201): the accessed location is `path.join(vaultPath, notePath)`, with
no containment check; if a file exists there it is removed, otherwise the
call fails with "Note not found".  The result carries the new directory
listing together with the resolved location that was accessed (the code
reports the relative input path back; the resolved location is exposed
here to state where the access happened). -/
def noteDeletionRun (files : List (String × String)) (vault notePath : String) :
    Except String (List (String × String) × String) :=
  let full := joinPath vault notePath
  if (files.map Prod.fst).contains full then
    .ok (files.filter (fun e => !(e.1 = full)), full)
  else .error ("Note not found: " ++ notePath)

/-- Character class of `NoteCreationTool.sanitizeFilename` (NoteCreationTool.ts lines 82–87):
lowercase, collapse runs of non-alphanumeric characters to a single `-`,
then strip one leading and one trailing `-`. -/
def isLowerAlnum (c : Char) : Bool :=
  ('a' ≤ c && c ≤ 'z') || ('0' ≤ c && c ≤ '9')

/-- Collapse each maximal run of non-alphanumeric characters to one `-`
(the `/[^a-z0-9]+/g` replacement). -/
def collapseNonAlnumAux (inRun : Bool) : List Char → List Char
  | [] => []
  | c :: rest =>
    if isLowerAlnum c then c :: collapseNonAlnumAux false rest
    else if inRun then collapseNonAlnumAux true rest
    else '-' :: collapseNonAlnumAux true rest

/-- Strip a single leading dash (the `^-` alternative of the final
replacement). -/
def dropLeadDash : List Char → List Char
  | '-' :: r => r
  | s => s

/-- Strip a single trailing dash (the `-$` alternative of the final
replacement). -/
def dropTrailDash (s : List Char) : List Char :=
  match s.reverse with
  | '-' :: r => r.reverse
  | _ => s

/-- Model of `sanitizeFilename` in full. -/
def sanitizeFilename (title : List Char) : List Char :=
  dropTrailDash (dropLeadDash (collapseNonAlnumAux false (title.map Char.toLower)))

/-- The destination path computed by `NoteCreationTool.execute`
(NoteCreationTool.ts lines 36–38): `path.join(path.join(vaultPath, folder),
sanitizeFilename(title) + ".md")`. -/
def noteCreationPath (vault folder title : String) : String :=
  joinPath (joinPath vault folder) ⟨sanitizeFilename title.data ++ ".md".data⟩

/-- Model of `fs.writeFile` on a directory listing: overwrite the entry at `p` if
present, otherwise append a new entry. -/
def writeFileFS (files : List (String × String)) (p c : String) : List (String × String) :=
  if (files.map Prod.fst).contains p then
    files.map (fun e => if e.1 = p then (p, c) else e)
  else files ++ [(p, c)]

/-- Model of `NoteCreationTool.execute` (NoteCreationTool.ts lines 35–65), after
template resolution: compute the destination path from the slugified title
and write the serialised note there unconditionally — there is no
pre-existence check and no error path for an occupied destination. -/
def createNoteRun (files : List (String × String)) (vault folder title content : String) :
    List (String × String) × String :=
  (writeFileFS files (noteCreationPath vault folder title) content,
   noteCreationPath vault folder title)

/-- Modelled from the spec: the Document Model's `parse`/`serialize`
(spec §4.1, §6) is realised in the source by the external `gray-matter`
library, whose code is not part of this repository.  Frontmatter is
modelled as the spec describes it — an ordered mapping of string keys to
(scalar) string values — and the on-disk format as a header block delimited
by the fixed marker line `---` followed by the body.  `serializeNote`
re-emits the header (one `key: value` line per entry, preserving order)
followed by the body. -/
def serializeNote (f : List (List Char × List Char)) (b : List Char) : List Char :=
  '-' :: '-' :: '-' :: '\n' ::
    ((f.map (fun kv => kv.1 ++ ':' :: ' ' :: kv.2 ++ ['\n'])).flatten ++
      '-' :: '-' :: '-' :: '\n' :: b)

/-- Recognise the fixed header marker line `---` at the head of the input,
returning the remainder. -/
def takeHeader (s : List Char) : Option (List Char) :=
  if s.take 4 = ['-', '-', '-', '\n'] then some (s.drop 4) else none

/-- Parse one `key: value` header line. -/
def parseLineKV (l : List Char) : Option (List Char × List Char) :=
  match l.dropWhile (fun c => !(c = ':')) with
  | ':' :: ' ' :: v => some (l.takeWhile (fun c => !(c = ':')), v)
  | _ => none

/-- Modelled from the spec: read header lines until the closing marker;
`none` models `MalformedFrontmatterError` (a header that opens but never
closes, or a malformed line).  `fuel` bounds recursion and is instantiated
with the input length, which always suffices. -/
def parseFMGo : Nat → List Char → Option ((List (List Char × List Char)) × List Char)
  | 0, s =>
    match takeHeader s with
    | some r => some ([], r)
    | none => none
  | fuel' + 1, s =>
    match takeHeader s with
    | some r => some ([], r)
    | none =>
      match s.dropWhile (fun c => !(c = '\n')) with
      | [] => none
      | _ :: r =>
        match parseLineKV (s.takeWhile (fun c => !(c = '\n'))), parseFMGo fuel' r with
        | some kv, some (f, b) => some (kv :: f, b)
        | _, _ => none

/-- Modelled from the spec: `parse(raw) -> (frontmatter, body)` (spec
§4.1).  A document with no opening marker yields an empty frontmatter
mapping and the entire content as body; an unclosed header yields `none`
(`MalformedFrontmatterError`). -/
def parseNote (s : List Char) : Option ((List (List Char × List Char)) × List Char) :=
  match takeHeader s with
  | some r => parseFMGo s.length r
  | none => some ([], s)

/-- Well-formedness of a frontmatter mapping for the round-trip property:
keys contain no newline and no colon, values contain no newline. -/
def WellFormedFM (f : List (List Char × List Char)) : Prop :=
  ∀ kv ∈ f, ¬ '\n' ∈ kv.1 ∧ ¬ ':' ∈ kv.1 ∧ ¬ '\n' ∈ kv.2

instance : DecidablePred WellFormedFM := fun f =>
  List.decidableBAll _ f

/-- One file of `NoteMoveAndRenameTool.updateLinksInVault`'s loop
(NoteMoveAndRenameTool.ts lines 74–84): rewrite the body and write it back
only when the rewritten text differs (`content !== updatedContent`).  The
boolean records whether the file was written. -/
def updateFileLinks (old new : List Char) (file : List Char × List Char) :
    (List Char × List Char) × Bool :=
  let updated := rewriteNoteLinks old new file.2
  if file.2 = updated then (file, false) else ((file.1, updated), true)

/-- The whole loop of `NoteMoveAndRenameTool.updateLinksInVault` over every
markdown file of the vault. -/
def updateLinksInVault (old new : List Char) (files : List (List Char × List Char)) :
    List ((List Char × List Char) × Bool) :=
  files.map (updateFileLinks old new)

/-- A vault of raw text files together with the paths whose read throws,
for the cascade-failure analysis of `updateLinksInVault`. -/
structure TextFS where
  files : List (String × String)
  failing : List String
deriving Repr

/-- The `for (const file of files)` loop of
`NoteMoveAndRenameTool.updateLinksInVault` with fallible reads.  The whole
loop sits inside a single `try`: the first failing read aborts the
remaining files, and the surrounding `catch` swallows the error
(`console.error`), so the move itself still reports success.  The boolean
records whether an error was thrown (and swallowed). -/
def cascadeGo (old new : List Char) (fs : TextFS) : List String → TextFS × Bool
  | [] => (fs, false)
  | p :: rest =>
    if p ∈ fs.failing then (fs, true)
    else
      match fs.files.lookup p with
      | none => (fs, true)
      | some content =>
        let updated : String := ⟨rewriteNoteLinks old new content.data⟩
        let fs' :=
          if content = updated then fs
          else { fs with files := fs.files.map (fun e => if e.1 = p then (p, updated) else e) }
        cascadeGo old new fs' rest

/-- Model of `BaseAgent.selectTools` (part_002 lines 333–337): the registry is
filtered by membership in the classifier's `requiredTools`; required tools
absent from the registry are dropped without any error.  Tools are
identified by name. -/
def selectTools (registry required : List String) : List String :=
  registry.filter (fun t => required.contains t)

/-- Model of `BaseAgent.executeStep` (part_002 lines 378–384): look the step's tool
up by name; throw `Tool <name> not found` when absent, otherwise run the
tool.  `run` stands for `tool.execute(step.parameters)`. -/
def executeStep (registry : List String) (run : String → String) (toolName : String) :
    Except String String :=
  if registry.contains toolName then .ok (run toolName)
  else .error ("Tool " ++ toolName ++ " not found")

/-- In-place tag replacement: what "replaces `oldTag` with `newTag`
in-place" would mean for a tag array — every occurrence of the old tag is
replaced at its own position. -/
def replaceInPlace (old new : String) (l : List String) : List String :=
  l.map (fun t => if t = old then new else t)

theorem takeWhile_append_middle (p : Char → Bool) (l₁ l₂ : List Char) (c : Char)
    (h : ∀ x ∈ l₁, p x = true) (hc : p c = false) :
    (l₁ ++ c :: l₂).takeWhile p = l₁ ∧ (l₁ ++ c :: l₂).dropWhile p = c :: l₂ := by
  induction l₁ with
  | nil => simp [List.takeWhile, List.dropWhile, hc]
  | cons a l ih =>
    have ha : p a = true := h a (by simp)
    have ih' := ih (fun x hx => h x (by simp [hx]))
    simp [List.takeWhile, List.dropWhile, ha, ih'.1, ih'.2]

theorem isPrefixOf_append_self (l₁ l₂ : List Char) : l₁.isPrefixOf (l₁ ++ l₂) = true := by
  rw [List.isPrefixOf_iff_prefix]; exact List.prefix_append l₁ l₂

theorem matchNoteLink_plain (old r : List Char) :
    matchNoteLink old ('[' :: '[' :: (old ++ ']' :: ']' :: r)) = some ([], r) := by
  simp [matchNoteLink, isPrefixOf_append_self, List.drop_left]

theorem matchNoteLink_aliased (old al r : List Char) (h : ¬ ']' ∈ al) :
    matchNoteLink old ('[' :: '[' :: (old ++ '|' :: (al ++ ']' :: ']' :: r)))
      = some ('|' :: al, r) := by
  have hal : ∀ x ∈ al, (!(x = ']')) = true := by
    intro x hx
    simp only [Bool.not_eq_true', decide_eq_false_iff_not]
    intro hxx; exact h (hxx ▸ hx)
  have hspan := takeWhile_append_middle (fun c => !(c = ']')) al (']' :: r) ']' hal (by simp)
  simp [matchNoteLink, isPrefixOf_append_self, List.drop_left, hspan.1, hspan.2]

theorem rewriteNoteGo_nil (old new : List Char) (fuel : Nat) :
    rewriteNoteGo old new fuel [] = [] := by
  cases fuel <;> simp [rewriteNoteGo]

theorem rewriteNoteLinks_plain_link (old new : List Char) :
    rewriteNoteLinks old new ('[' :: '[' :: (old ++ [']', ']']))
      = '[' :: '[' :: (new ++ [']', ']']) := by
  have hm := matchNoteLink_plain old []
  simp only [rewriteNoteLinks, List.length_cons]
  simp [rewriteNoteGo, hm, rewriteNoteGo_nil]

theorem rewriteNoteLinks_aliased_link (old new al : List Char) (h : ¬ ']' ∈ al) :
    rewriteNoteLinks old new ('[' :: '[' :: (old ++ '|' :: (al ++ [']', ']'])))
      = '[' :: '[' :: (new ++ '|' :: (al ++ [']', ']'])) := by
  have hm := matchNoteLink_aliased old al [] h
  simp only [rewriteNoteLinks, List.length_cons]
  simp [rewriteNoteGo, hm, rewriteNoteGo_nil]

/-- C1 (counterexample): moving note `a/b.md` to `c/d.md` with link
updating enabled does NOT rewrite another document's `[[b]]` or
`[[b|custom alias]]` references — `updateLinksInVault` matches the full
path identifier `a/b`, not the basename `b`, so the document is left
unchanged (and unwritten) rather than becoming `[[d]] and
[[d|custom alias]]`. -/
theorem claimC1_counterexample :
    updateLinksInVault (pathToWikiLink "a/b.md".data) (pathToWikiLink "c/d.md".data)
        [("other.md".data, "[[b]] and [[b|custom alias]]".data)]
      = [(("other.md".data, "[[b]] and [[b|custom alias]]".data), false)] ∧
    ¬ rewriteNoteLinks (pathToWikiLink "a/b.md".data) (pathToWikiLink "c/d.md".data)
        "[[b]] and [[b|custom alias]]".data
      = "[[d]] and [[d|custom alias]]".data := by
  constructor
  · decide
  · decide

/-- C1 (amended): for a note move with link updating enabled, a link
reference whose target is the moved note's old identifier — the full
vault-relative path with the `.md` extension stripped and whitespace
replaced (`pathToWikiLink`), not the basename — is rewritten to the new
identifier, and the alias portion of an aliased reference is preserved
verbatim: `[[a/b]]` becomes `[[c/d]]` and `[[a/b|custom alias]]` becomes
`[[c/d|custom alias]]`. -/
theorem claimC1_theorem (src dst al : List Char) (h : ¬ ']' ∈ al) :
    rewriteNoteLinks (pathToWikiLink src) (pathToWikiLink dst)
        ('[' :: '[' :: (pathToWikiLink src ++ [']', ']']))
      = '[' :: '[' :: (pathToWikiLink dst ++ [']', ']']) ∧
    rewriteNoteLinks (pathToWikiLink src) (pathToWikiLink dst)
        ('[' :: '[' :: (pathToWikiLink src ++ '|' :: (al ++ [']', ']'])))
      = '[' :: '[' :: (pathToWikiLink dst ++ '|' :: (al ++ [']', ']'])) :=
  ⟨rewriteNoteLinks_plain_link _ _, rewriteNoteLinks_aliased_link _ _ _ h⟩

/-- C1 (witness): the amended theorem applied to the move of `a/b.md` to
`c/d.md` and the alias `custom alias`. -/
theorem claimC1_witness :
    ¬ ']' ∈ "custom alias".data ∧
    (rewriteNoteLinks (pathToWikiLink "a/b.md".data) (pathToWikiLink "c/d.md".data)
        ('[' :: '[' :: (pathToWikiLink "a/b.md".data ++ [']', ']']))
      = '[' :: '[' :: (pathToWikiLink "c/d.md".data ++ [']', ']']) ∧
    rewriteNoteLinks (pathToWikiLink "a/b.md".data) (pathToWikiLink "c/d.md".data)
        ('[' :: '[' :: (pathToWikiLink "a/b.md".data ++ '|' :: ("custom alias".data ++ [']', ']'])))
      = '[' :: '[' :: (pathToWikiLink "c/d.md".data ++ '|' :: ("custom alias".data ++ [']', ']']))) :=
  ⟨by decide, claimC1_theorem "a/b.md".data "c/d.md".data "custom alias".data (by decide)⟩

/-- C2 (counterexample): a folder-move-triggered rewrite of `foo` to `baz`
on the body `"[[foo]] and [[foobar]]"` alters the prefix-sharing reference:
the result is `"[[baz]] and [[bazbar]]"`, not the claimed
`"[[baz]] and [[foobar]]"`. -/
theorem claimC2_counterexample :
    rewriteFolderLinks (pathToWikiLink "foo".data) (pathToWikiLink "baz".data)
        "[[foo]] and [[foobar]]".data
      = "[[baz]] and [[bazbar]]".data ∧
    ¬ rewriteFolderLinks (pathToWikiLink "foo".data) (pathToWikiLink "baz".data)
        "[[foo]] and [[foobar]]".data
      = "[[baz]] and [[foobar]]".data := by
  constructor
  · decide
  · decide

/-- C2 (amended): only the note-move rewriter (regex
`\[\[old(\|[^\]]*)?\]\]`) restricts itself to exact-identifier matches — on
`"[[foo]] and [[foobar]]"` it yields `"[[baz]] and [[foobar]]"`.  The
folder-move rewriter (regex `\[\[old[^\]]*\]\]`) matches by prefix and
substitutes the first occurrence inside each match, so the same body
becomes `"[[baz]] and [[bazbar]]"`: prefix-sharing references are
corrupted by folder moves. -/
theorem claimC2_theorem :
    rewriteNoteLinks (pathToWikiLink "foo".data) (pathToWikiLink "baz".data)
        "[[foo]] and [[foobar]]".data
      = "[[baz]] and [[foobar]]".data ∧
    rewriteFolderLinks (pathToWikiLink "foo".data) (pathToWikiLink "baz".data)
        "[[foo]] and [[foobar]]".data
      = "[[baz]] and [[bazbar]]".data := by
  constructor
  · decide
  · decide

theorem mem_jsSetFromList (x : String) (l : List String) :
    x ∈ jsSetFromList l ↔ x ∈ l := by
  induction l with
  | nil => simp [jsSetFromList]
  | cons a l ih =>
    by_cases hxa : x = a
    · subst hxa; simp [jsSetFromList]
    · simp [jsSetFromList, List.mem_filter, ih, hxa]

theorem nodup_jsSetFromList (l : List String) : (jsSetFromList l).Nodup := by
  induction l with
  | nil => simp [jsSetFromList]
  | cons a l ih =>
    rw [jsSetFromList, List.nodup_cons]
    refine ⟨?_, List.Nodup.filter _ ih⟩
    intro hmem
    have := (List.mem_filter.mp hmem).2
    simp at this

theorem mem_jsSetAdd (x y : String) (s : List String) :
    x ∈ jsSetAdd s y ↔ x ∈ s ∨ x = y := by
  unfold jsSetAdd
  by_cases h : y ∈ s
  · simp only [if_pos h]
    constructor
    · exact Or.inl
    · rintro (hx | rfl) <;> [exact hx; exact h]
  · simp [if_neg h, List.mem_append]

theorem nodup_jsSetAdd (s : List String) (y : String) (h : s.Nodup) :
    (jsSetAdd s y).Nodup := by
  unfold jsSetAdd
  split
  · exact h
  · next hy => simp [List.nodup_append, h, hy]

/-- C3 (counterexample): with vault root `/vault`, the note-deletion
parameter `../secret.md` resolves (via `path.join` normalisation) to
`/secret.md`, which lies outside the vault root; no `PathEscapeError` is
raised — the tool accesses the escaped location and deletes the file
there. -/
theorem claimC3_counterexample :
    noteDeletionRun [("/vault/a.md", "x"), ("/secret.md", "y")] "/vault" "../secret.md"
      = .ok ([("/vault/a.md", "x")], "/secret.md") ∧
    isUnder "/vault" (joinPath "/vault" "../secret.md") = false := by
  constructor
  · rfl
  · decide

/-- C3 (amended): relative path parameters are resolved against the vault
root by `path.join`, which normalises `.` and `..` segments, but no
containment check is performed: even when the resolved location lies
outside the vault root, the operation proceeds and its outcome depends
solely on whether a file exists at the resolved location — escaping inputs
are never rejected. -/
theorem claimC3_theorem (files : List (String × String)) (vault p : String)
    (hEsc : isUnder vault (joinPath vault p) = false) :
    (noteDeletionRun files vault p).isOk
      = (files.map Prod.fst).contains (joinPath vault p) := by
  by_cases hc : (files.map Prod.fst).contains (joinPath vault p) = true
  · rw [hc]
    unfold noteDeletionRun
    rw [if_pos hc]
    rfl
  · rw [Bool.not_eq_true] at hc
    rw [hc]
    unfold noteDeletionRun
    rw [if_neg (by rw [hc]; simp)]
    rfl

/-- C3 (witness): the amended theorem applied to the escaping input
`../secret.md`. -/
theorem claimC3_witness :
    isUnder "/vault" (joinPath "/vault" "../secret.md") = false ∧
    (noteDeletionRun [("/vault/a.md", "x"), ("/secret.md", "y")] "/vault" "../secret.md").isOk
      = ([("/vault/a.md", "x"), ("/secret.md", "y")].map Prod.fst).contains
          (joinPath "/vault" "../secret.md") :=
  ⟨by decide, claimC3_theorem [("/vault/a.md", "x"), ("/secret.md", "y")] "/vault" "../secret.md"
    (by decide)⟩

/-- C4 (counterexample): renaming tag `old` to `new` on a document whose
tags are `["a", "old", "b"]` yields `["a", "b", "new"]` — the new tag is
appended at the end of the iteration order, not substituted in-place, so
the result differs from the in-place replacement `["a", "new", "b"]`. -/
theorem claimC4_counterexample :
    ((renameTagDoc "old" "new" 5 ⟨"t", ["a", "old", "b"], 0, ""⟩).1).tags
      = ["a", "b", "new"] ∧
    replaceInPlace "old" "new" ["a", "old", "b"] = ["a", "new", "b"] ∧
    ¬ ((renameTagDoc "old" "new" 5 ⟨"t", ["a", "old", "b"], 0, ""⟩).1).tags
      = replaceInPlace "old" "new" ["a", "old", "b"] := by
  refine ⟨by decide, by decide, by decide⟩

/-- C4 (amended): after `renameTag(old, new)` (with `old ≠ new`) no
document has `old` in its tag set, and every document that had `old` now
has `new` exactly once — even when `new` pre-existed, because the
JavaScript `Set` deduplicates.  However the replacement is not in-place:
the relative order of the remaining tags (of the deduplicated original) is
preserved, and when `new` was not already present it is appended at the
*end* of the tag list rather than substituted at `old`'s position. -/
theorem claimC4_theorem (old new : String) (now : Nat) (d : NoteDoc) (h : ¬ old = new) :
    (¬ old ∈ ((renameTagDoc old new now d).1).tags) ∧
    (old ∈ d.tags → ((renameTagDoc old new now d).1).tags.count new = 1) ∧
    (old ∈ d.tags →
      ((renameTagDoc old new now d).1).tags.filter (fun t => !(t = old) && !(t = new))
        = (jsSetFromList d.tags).filter (fun t => !(t = old) && !(t = new))) ∧
    (old ∈ d.tags → ¬ new ∈ jsSetFromList d.tags →
      ((renameTagDoc old new now d).1).tags
        = (jsSetFromList d.tags).filter (fun t => !(t = old)) ++ [new]) := by
  unfold renameTagDoc
  by_cases hmem : old ∈ jsSetFromList d.tags
  · rw [if_pos hmem]
    refine ⟨?_, fun _ => ?_, fun _ => ?_, fun _ hnew => ?_⟩
    · intro hx
      rcases (mem_jsSetAdd _ _ _).mp hx with hin | heq
      · have := (List.mem_filter.mp hin).2
        simp at this
      · exact h heq
    · have hnd : (jsSetAdd (jsSetDelete (jsSetFromList d.tags) old) new).Nodup :=
        nodup_jsSetAdd _ _ (List.Nodup.filter _ (nodup_jsSetFromList _))
      have hin : new ∈ jsSetAdd (jsSetDelete (jsSetFromList d.tags) old) new :=
        (mem_jsSetAdd _ _ _).mpr (Or.inr rfl)
      simpa using List.count_eq_one_of_mem hnd hin
    · show (jsSetAdd (jsSetDelete (jsSetFromList d.tags) old) new).filter _ = _
      unfold jsSetAdd jsSetDelete
      split
      · rw [List.filter_filter]
        refine List.filter_congr ?_
        intro x _
        by_cases h1 : x = old <;> by_cases h2 : x = new <;> simp [h1, h2]
      · rw [List.filter_append, List.filter_filter]
        have hnil : List.filter (fun t => !(t = old) && !(t = new)) [new] = [] := by simp
        rw [hnil, List.append_nil]
        refine List.filter_congr ?_
        intro x _
        by_cases h1 : x = old <;> by_cases h2 : x = new <;> simp [h1, h2]
    · show jsSetAdd (jsSetDelete (jsSetFromList d.tags) old) new = _
      have hnotin : ¬ new ∈ jsSetDelete (jsSetFromList d.tags) old := by
        intro hx
        exact hnew (List.mem_filter.mp hx).1
      unfold jsSetDelete at hnotin
      unfold jsSetAdd jsSetDelete
      rw [if_neg hnotin]
  · rw [if_neg hmem]
    have hnot : ¬ old ∈ d.tags := fun hx => hmem ((mem_jsSetFromList _ _).mpr hx)
    exact ⟨hnot, fun hx => absurd hx hnot, fun hx => absurd hx hnot,
      fun hx _ => absurd hx hnot⟩

/-- C4 (witness): the amended theorem applied to the rename of `old` to
`new` on a document tagged `["a", "old", "b"]`. -/
theorem claimC4_witness :
    ¬ "old" = "new" ∧
    ((¬ "old" ∈ ((renameTagDoc "old" "new" 5 ⟨"t", ["a", "old", "b"], 0, ""⟩).1).tags) ∧
    ("old" ∈ ["a", "old", "b"] →
      ((renameTagDoc "old" "new" 5 ⟨"t", ["a", "old", "b"], 0, ""⟩).1).tags.count "new" = 1) ∧
    ("old" ∈ ["a", "old", "b"] →
      ((renameTagDoc "old" "new" 5 ⟨"t", ["a", "old", "b"], 0, ""⟩).1).tags.filter
          (fun t => !(t = "old") && !(t = "new"))
        = (jsSetFromList ["a", "old", "b"]).filter (fun t => !(t = "old") && !(t = "new"))) ∧
    ("old" ∈ ["a", "old", "b"] → ¬ "new" ∈ jsSetFromList ["a", "old", "b"] →
      ((renameTagDoc "old" "new" 5 ⟨"t", ["a", "old", "b"], 0, ""⟩).1).tags
        = (jsSetFromList ["a", "old", "b"]).filter (fun t => !(t = "old")) ++ ["new"])) :=
  ⟨by decide, claimC4_theorem "old" "new" 5 ⟨"t", ["a", "old", "b"], 0, ""⟩ (by decide)⟩

/-- C5 (counterexample): running `addTag` over the files `g1`, `bad`, `g2`
where reading `bad` throws: `g1` is tagged and written, but the loop then
aborts — the readable sibling `g2` is never processed (its tags stay
empty), no failure list is collected alongside a partial result, and the
whole operation fails even though two of three documents could have been
processed. -/
theorem claimC5_counterexample :
    (addTagRun "t" 1
        ⟨[("g1", ⟨"t", [], 0, ""⟩), ("bad", ⟨"t", [], 0, ""⟩), ("g2", ⟨"t", [], 0, ""⟩)],
         ["bad"]⟩ ["g1", "bad", "g2"]).2.2 = true ∧
    (addTagRun "t" 1
        ⟨[("g1", ⟨"t", [], 0, ""⟩), ("bad", ⟨"t", [], 0, ""⟩), ("g2", ⟨"t", [], 0, ""⟩)],
         ["bad"]⟩ ["g1", "bad", "g2"]).2.1 = ["g1"] ∧
    (addTagRun "t" 1
        ⟨[("g1", ⟨"t", [], 0, ""⟩), ("bad", ⟨"t", [], 0, ""⟩), ("g2", ⟨"t", [], 0, ""⟩)],
         ["bad"]⟩ ["g1", "bad", "g2"]).1.files.lookup "g2" = some ⟨"t", [], 0, ""⟩ := by
  refine ⟨by decide, by decide, by decide⟩

/-- C5 (amended): a single document read failure does not abort only that
document: in every multi-document loop (tag add, tag rename, cascade link
rewrite) the first failing document aborts processing of all remaining
documents — earlier writes stay committed, failures are not collected.
The tag operations propagate the error (the whole operation fails); the
link cascade swallows it, silently skipping the remaining documents. -/
theorem claimC5_theorem :
    (∀ (tag : String) (now : Nat) (fs : VaultFS) (p : String) (rest : List String),
      readNote fs p = none → addTagRun tag now fs (p :: rest) = (fs, [], true)) ∧
    (∀ (old new : String) (now : Nat) (fs : VaultFS) (p : String) (rest : List String),
      readNote fs p = none → renameTagRun old new now fs (p :: rest) = (fs, [], true)) ∧
    (∀ (old new : List Char) (fs : TextFS) (p : String) (rest : List String),
      p ∈ fs.failing → cascadeGo old new fs (p :: rest) = (fs, true)) := by
  refine ⟨?_, ?_, ?_⟩
  · intro tag now fs p rest hread
    unfold addTagRun
    rw [hread]
  · intro old new now fs p rest hread
    unfold renameTagRun
    rw [hread]
  · intro old new fs p rest hfail
    unfold cascadeGo
    rw [if_pos hfail]

/-- C5 (witness): the amended theorem applied at the failing file `bad`. -/
theorem claimC5_witness :
    readNote ⟨[("bad", ⟨"t", [], 0, ""⟩), ("g2", ⟨"t", [], 0, ""⟩)], ["bad"]⟩ "bad" = none ∧
    addTagRun "t" 1 ⟨[("bad", ⟨"t", [], 0, ""⟩), ("g2", ⟨"t", [], 0, ""⟩)], ["bad"]⟩
        ["bad", "g2"]
      = (⟨[("bad", ⟨"t", [], 0, ""⟩), ("g2", ⟨"t", [], 0, ""⟩)], ["bad"]⟩, [], true) :=
  ⟨by decide,
   claimC5_theorem.1 "t" 1 ⟨[("bad", ⟨"t", [], 0, ""⟩), ("g2", ⟨"t", [], 0, ""⟩)], ["bad"]⟩
     "bad" ["g2"] (by decide)⟩

/-- C6 (counterexample): with registry `[note_creation]` and classifier
output requiring `note_creation` and `ghost`, planning (`selectTools`)
silently drops `ghost` and returns successfully — the task does not fail
with `ToolNotFoundError` during planning.  A tool-not-found error arises
only later, when a plan step naming the absent tool reaches
`executeStep`. -/
theorem claimC6_counterexample :
    selectTools ["note_creation"] ["note_creation", "ghost"] = ["note_creation"] ∧
    executeStep ["note_creation"] (fun n => n) "ghost" = .error "Tool ghost not found" := by
  constructor
  · decide
  · rfl

/-- C6 (amended): `selectTools` intersects the registry with the required
tools and never fails — required tools missing from the registry are
silently skipped during planning.  Only execution of a plan step naming an
absent tool fails, with a `Tool <name> not found` error thrown before any
tool is run. -/
theorem claimC6_theorem :
    (∀ (registry required : List String) (t : String),
      t ∈ selectTools registry required ↔ t ∈ registry ∧ required.contains t = true) ∧
    (∀ (registry : List String) (run : String → String) (toolName : String),
      registry.contains toolName = false →
        executeStep registry run toolName = .error ("Tool " ++ toolName ++ " not found")) := by
  constructor
  · intro registry required t
    unfold selectTools
    exact List.mem_filter
  · intro registry run toolName hno
    unfold executeStep
    rw [if_neg (by rw [hno]; simp)]

/-- C6 (witness): the amended theorem applied to the absent tool `ghost`. -/
theorem claimC6_witness :
    (["note_creation"] : List String).contains "ghost" = false ∧
    executeStep ["note_creation"] (fun n => n) "ghost"
      = .error ("Tool " ++ "ghost" ++ " not found") :=
  ⟨by decide, claimC6_theorem.2 ["note_creation"] (fun n => n) "ghost" (by decide)⟩

theorem takeHeader_marker (r : List Char) :
    takeHeader ('-' :: '-' :: '-' :: '\n' :: r) = some r := by
  simp [takeHeader]

theorem take4_ne_marker (line rest : List Char) (hn : ¬ '\n' ∈ line) (hc : ':' ∈ line) :
    ¬ (line ++ '\n' :: rest).take 4 = ['-', '-', '-', '\n'] := by
  rcases line with _ | ⟨a, _ | ⟨b, _ | ⟨c, _ | ⟨d, t⟩⟩⟩⟩
  · simp at hc
  · intro h
    simp [List.take] at h
  · intro h
    simp [List.take] at h
  · intro h
    simp [List.take] at h
    obtain ⟨rfl, rfl, rfl⟩ := h
    simp at hc
  · intro h
    simp [List.take] at h
    obtain ⟨-, -, -, rfl⟩ := h
    exact hn (by simp)

theorem takeHeader_line_none (line rest : List Char) (hn : ¬ '\n' ∈ line) (hc : ':' ∈ line) :
    takeHeader (line ++ '\n' :: rest) = none := by
  unfold takeHeader
  rw [if_neg (take4_ne_marker line rest hn hc)]

theorem parseLineKV_serialized (k v : List Char) (hk : ¬ ':' ∈ k) :
    parseLineKV (k ++ ':' :: ' ' :: v) = some (k, v) := by
  have hka : ∀ x ∈ k, (!(x = ':')) = true := by
    intro x hx
    simp only [Bool.not_eq_true', decide_eq_false_iff_not]
    intro hxx; exact hk (hxx ▸ hx)
  have hspan := takeWhile_append_middle (fun c => !(c = ':')) k (' ' :: v) ':' hka (by simp)
  unfold parseLineKV
  rw [hspan.2, hspan.1]
  rfl

theorem parseFMGo_serialized (f : List (List Char × List Char)) (b : List Char)
    (hwf : WellFormedFM f) :
    ∀ fuel : Nat,
      ((f.map (fun kv => kv.1 ++ ':' :: ' ' :: kv.2 ++ ['\n'])).flatten
        ++ '-' :: '-' :: '-' :: '\n' :: b).length ≤ fuel →
      parseFMGo fuel
        ((f.map (fun kv => kv.1 ++ ':' :: ' ' :: kv.2 ++ ['\n'])).flatten
          ++ '-' :: '-' :: '-' :: '\n' :: b)
        = some (f, b) := by
  induction f with
  | nil =>
    intro fuel _
    simp only [List.map_nil, List.flatten_nil, List.nil_append]
    cases fuel <;> simp [parseFMGo, takeHeader_marker]
  | cons kv f' ih =>
    intro fuel hfuel
    obtain ⟨k, v⟩ := kv
    have hk1 : ¬ '\n' ∈ k := (hwf (k, v) (by simp)).1
    have hk2 : ¬ ':' ∈ k := (hwf (k, v) (by simp)).2.1
    have hv1 : ¬ '\n' ∈ v := (hwf (k, v) (by simp)).2.2
    have hwf' : WellFormedFM f' := fun x hx => hwf x (List.mem_cons_of_mem _ hx)
    have hline : ¬ '\n' ∈ (k ++ ':' :: ' ' :: v) := by
      intro hx
      rcases List.mem_append.mp hx with hx | hx
      · exact hk1 hx
      · simp only [List.mem_cons] at hx
        rcases hx with h1 | h1 | h1
        · exact absurd h1 (by decide)
        · exact absurd h1 (by decide)
        · exact hv1 h1
    have hcolon : ':' ∈ (k ++ ':' :: ' ' :: v) := by simp
    have hshape :
        ((((k, v) :: f').map (fun kv => kv.1 ++ ':' :: ' ' :: kv.2 ++ ['\n'])).flatten
          ++ '-' :: '-' :: '-' :: '\n' :: b)
        = (k ++ ':' :: ' ' :: v) ++ '\n' ::
            ((f'.map (fun kv => kv.1 ++ ':' :: ' ' :: kv.2 ++ ['\n'])).flatten
              ++ '-' :: '-' :: '-' :: '\n' :: b) := by
      simp [List.append_assoc]
    rw [hshape] at hfuel ⊢
    cases fuel with
    | zero =>
      exfalso
      simp [List.length_append] at hfuel
    | succ fuel' =>
      simp only [parseFMGo, takeHeader_line_none _ _ hline hcolon]
      have hall : ∀ x ∈ (k ++ ':' :: ' ' :: v), (!(x = '\n')) = true := by
        intro x hx
        simp only [Bool.not_eq_true', decide_eq_false_iff_not]
        intro hxx; exact hline (hxx ▸ hx)
      have hspan := takeWhile_append_middle (fun c => !(c = '\n')) (k ++ ':' :: ' ' :: v)
        ((f'.map (fun kv => kv.1 ++ ':' :: ' ' :: kv.2 ++ ['\n'])).flatten
          ++ '-' :: '-' :: '-' :: '\n' :: b) '\n' hall (by simp)
      have hbound :
          ((f'.map (fun kv => kv.1 ++ ':' :: ' ' :: kv.2 ++ ['\n'])).flatten
            ++ '-' :: '-' :: '-' :: '\n' :: b).length ≤ fuel' := by
        simp only [List.length_append, List.length_cons] at hfuel ⊢
        omega
      simp only [hspan.2, hspan.1, parseLineKV_serialized k v hk2, ih hwf' fuel' hbound]

/-- C7 (confirmed): for every well-formed frontmatter mapping `f` (keys
contain no newline and no colon, values contain no newline) and every body
`b`, parsing the serialised document yields exactly `(f, b)`:
`parse(serialize(f, b)) = (f, b)`. -/
theorem claimC7_theorem (f : List (List Char × List Char)) (b : List Char)
    (h : WellFormedFM f) :
    parseNote (serializeNote f b) = some (f, b) := by
  unfold serializeNote parseNote
  simp only [takeHeader_marker]
  apply parseFMGo_serialized f b h
  simp only [List.length_cons]
  omega

/-- C7 (witness): the round trip evaluated on a concrete frontmatter
mapping and body. -/
theorem claimC7_witness :
    WellFormedFM [("title".data, "Ideas".data), ("tags".data, "draft".data)] ∧
    parseNote (serializeNote [("title".data, "Ideas".data), ("tags".data, "draft".data)]
        "Hello [[World]]".data)
      = some ([("title".data, "Ideas".data), ("tags".data, "draft".data)],
          "Hello [[World]]".data) :=
  ⟨by decide,
   claimC7_theorem [("title".data, "Ideas".data), ("tags".data, "draft".data)]
     "Hello [[World]]".data (by decide)⟩

/-- C8 (confirmed): in the cascade link rewrite, every vault file is
processed, and a file is written back if and only if the rewrite changed
its body (`content !== updatedContent`); an unchanged file is returned
exactly as it was — content (and hence its serialised `modified`
timestamp) untouched. -/
theorem claimC8_theorem (old new : List Char) (files : List (List Char × List Char))
    (file : List Char × List Char) (hf : file ∈ files) :
    (updateFileLinks old new file) ∈ updateLinksInVault old new files ∧
    ((updateFileLinks old new file).2 = true ↔ ¬ rewriteNoteLinks old new file.2 = file.2) ∧
    ((updateFileLinks old new file).2 = false → updateFileLinks old new file = (file, false)) := by
  refine ⟨List.mem_map_of_mem _ hf, ?_, ?_⟩
  · unfold updateFileLinks
    by_cases hc : file.2 = rewriteNoteLinks old new file.2
    · rw [if_pos hc]
      constructor
      · intro h; simp at h
      · intro hn; exact absurd hc.symm hn
    · rw [if_neg hc]
      constructor
      · intro _; exact fun h => hc h.symm
      · intro _; rfl
  · unfold updateFileLinks
    by_cases hc : file.2 = rewriteNoteLinks old new file.2
    · rw [if_pos hc]; intro _; rfl
    · rw [if_neg hc]; intro h; simp at h

/-- C8 (witness): the write-iff-changed property on a two-file vault where
one file references the moved note and the other does not. -/
theorem claimC8_witness :
    (("refs.md".data, "see [[a/b]]".data)
        ∈ [("refs.md".data, "see [[a/b]]".data), ("plain.md".data, "no links".data)]) ∧
    ((updateFileLinks "a/b".data "c/d".data ("refs.md".data, "see [[a/b]]".data))
        ∈ updateLinksInVault "a/b".data "c/d".data
            [("refs.md".data, "see [[a/b]]".data), ("plain.md".data, "no links".data)] ∧
    ((updateFileLinks "a/b".data "c/d".data ("refs.md".data, "see [[a/b]]".data)).2 = true ↔
      ¬ rewriteNoteLinks "a/b".data "c/d".data ("refs.md".data, "see [[a/b]]".data).2
        = ("refs.md".data, "see [[a/b]]".data).2) ∧
    ((updateFileLinks "a/b".data "c/d".data ("refs.md".data, "see [[a/b]]".data)).2 = false →
      updateFileLinks "a/b".data "c/d".data ("refs.md".data, "see [[a/b]]".data)
        = (("refs.md".data, "see [[a/b]]".data), false))) :=
  ⟨by decide,
   claimC8_theorem "a/b".data "c/d".data
     [("refs.md".data, "see [[a/b]]".data), ("plain.md".data, "no links".data)]
     ("refs.md".data, "see [[a/b]]".data) (by decide)⟩

/-- C9 (counterexample): `NoteUpdateTool.execute` stores the caller's
`tags` array verbatim: updating a note with `tags = ["a", "a"]` leaves the
document's tag field with a duplicate entry, violating the no-duplicates
invariant. -/
theorem claimC9_counterexample :
    (noteUpdate ⟨none, none, some ["a", "a"]⟩ 7 ⟨"t", ["x"], 0, "b"⟩).tags = ["a", "a"] ∧
    ¬ ((noteUpdate ⟨none, none, some ["a", "a"]⟩ 7 ⟨"t", ["x"], 0, "b"⟩).tags).Nodup := by
  refine ⟨by decide, by decide⟩

/-- C9 (amended): every mutating write stamps `modified` with the current
clock value, so `modified` is non-decreasing provided the clock is
(`d.modified ≤ now`); and the tag operations (add/remove/rename), which go
through a JavaScript `Set`, leave a written document with duplicate-free
tags — but note update (and create) store the supplied tags array
verbatim, so those operations do not guarantee duplicate-freedom. -/
theorem claimC9_theorem :
    (∀ (p : NoteUpdateParams) (now : Nat) (d : NoteDoc),
      d.modified ≤ now → d.modified ≤ (noteUpdate p now d).modified) ∧
    (∀ (tag : String) (now : Nat) (d : NoteDoc),
      d.modified ≤ now → d.modified ≤ (addTagDoc tag now d).1.modified) ∧
    (∀ (tag : String) (now : Nat) (d : NoteDoc),
      d.modified ≤ now → d.modified ≤ (removeTagDoc tag now d).1.modified) ∧
    (∀ (old new : String) (now : Nat) (d : NoteDoc),
      d.modified ≤ now → d.modified ≤ (renameTagDoc old new now d).1.modified) ∧
    (∀ (tag : String) (now : Nat) (d : NoteDoc),
      (addTagDoc tag now d).2 = true → ((addTagDoc tag now d).1.tags).Nodup) ∧
    (∀ (tag : String) (now : Nat) (d : NoteDoc),
      (removeTagDoc tag now d).2 = true → ((removeTagDoc tag now d).1.tags).Nodup) ∧
    (∀ (old new : String) (now : Nat) (d : NoteDoc),
      (renameTagDoc old new now d).2 = true → ((renameTagDoc old new now d).1.tags).Nodup) := by
  refine ⟨?_, ?_, ?_, ?_, ?_, ?_, ?_⟩
  · intro p now d hle
    exact hle
  · intro tag now d hle
    unfold addTagDoc
    by_cases hm : tag ∈ jsSetFromList d.tags
    · rw [if_pos hm]
    · rw [if_neg hm]; exact hle
  · intro tag now d hle
    unfold removeTagDoc
    by_cases hm : tag ∈ jsSetFromList d.tags
    · rw [if_pos hm]; exact hle
    · rw [if_neg hm]
  · intro old new now d hle
    unfold renameTagDoc
    by_cases hm : old ∈ jsSetFromList d.tags
    · rw [if_pos hm]; exact hle
    · rw [if_neg hm]
  · intro tag now d hw
    unfold addTagDoc at hw ⊢
    by_cases hm : tag ∈ jsSetFromList d.tags
    · rw [if_pos hm] at hw; simp at hw
    · rw [if_neg hm]
      exact nodup_jsSetAdd _ _ (nodup_jsSetFromList _)
  · intro tag now d hw
    unfold removeTagDoc at hw ⊢
    by_cases hm : tag ∈ jsSetFromList d.tags
    · rw [if_pos hm]
      exact List.Nodup.filter _ (nodup_jsSetFromList _)
    · rw [if_neg hm] at hw; simp at hw
  · intro old new now d hw
    unfold renameTagDoc at hw ⊢
    by_cases hm : old ∈ jsSetFromList d.tags
    · rw [if_pos hm]
      exact nodup_jsSetAdd _ _ (List.Nodup.filter _ (nodup_jsSetFromList _))
    · rw [if_neg hm] at hw; simp at hw

/-- C9 (witness): monotonicity of `modified` across a concrete update, and
duplicate-freedom after a concrete tag rename. -/
theorem claimC9_witness :
    ((⟨"t", ["x"], 0, "b"⟩ : NoteDoc).modified ≤ 7 ∧
      (⟨"t", ["x"], 0, "b"⟩ : NoteDoc).modified
        ≤ (noteUpdate ⟨none, none, some ["a"]⟩ 7 ⟨"t", ["x"], 0, "b"⟩).modified) ∧
    ((renameTagDoc "x" "y" 9 ⟨"t", ["x"], 0, "b"⟩).2 = true ∧
      ((renameTagDoc "x" "y" 9 ⟨"t", ["x"], 0, "b"⟩).1.tags).Nodup) :=
  ⟨⟨by decide, claimC9_theorem.1 ⟨none, none, some ["a"]⟩ 7 ⟨"t", ["x"], 0, "b"⟩ (by decide)⟩,
   ⟨by decide, claimC9_theorem.2.2.2.2.2.2 "x" "y" 9 ⟨"t", ["x"], 0, "b"⟩ (by decide)⟩⟩

/-- C10 (confirmed): when the destination path computed from the slugified
title is already occupied, `NoteCreationTool.execute` succeeds and silently
overwrites: the new content is stored at the path, the old content is gone
(when it differed), no new entry is added, and no error is possible — the
operation performs no pre-existence check. -/
theorem claimC10_theorem (files : List (String × String))
    (vault folder title c0 c1 : String)
    (hex : (noteCreationPath vault folder title, c0) ∈ files) :
    (createNoteRun files vault folder title c1).2 = noteCreationPath vault folder title ∧
    (noteCreationPath vault folder title, c1) ∈ (createNoteRun files vault folder title c1).1 ∧
    (¬ c0 = c1 →
      ¬ (noteCreationPath vault folder title, c0) ∈ (createNoteRun files vault folder title c1).1) ∧
    (createNoteRun files vault folder title c1).1.map Prod.fst = files.map Prod.fst := by
  have hp : noteCreationPath vault folder title ∈ files.map Prod.fst :=
    List.mem_map_of_mem Prod.fst hex
  have hcont : (files.map Prod.fst).contains (noteCreationPath vault folder title) = true :=
    List.elem_iff.mpr hp
  unfold createNoteRun writeFileFS
  rw [if_pos hcont]
  refine ⟨rfl, ?_, ?_, ?_⟩
  · have hmem := List.mem_map_of_mem
      (fun e : String × String =>
        if e.1 = noteCreationPath vault folder title
        then (noteCreationPath vault folder title, c1) else e) hex
    simpa using hmem
  · intro hne hmem
    rcases List.mem_map.mp hmem with ⟨e, hel, heq⟩
    by_cases he : e.1 = noteCreationPath vault folder title
    · rw [if_pos he] at heq
      exact hne (congrArg Prod.snd heq).symm
    · rw [if_neg he] at heq
      exact he (congrArg Prod.fst heq)
  · rw [List.map_map]
    refine List.map_congr_left ?_
    intro e _
    by_cases he : e.1 = noteCreationPath vault folder title
    · simp [he]
    · simp [he]

/-- C10 (witness): creating a note titled `My Note!` in `/vault/notes`
where `/vault/notes/my-note.md` already exists overwrites the old
content. -/
theorem claimC10_witness :
    ((noteCreationPath "/vault" "notes" "My Note!", "old content")
        ∈ [("/vault/notes/my-note.md", "old content")]) ∧
    ((createNoteRun [("/vault/notes/my-note.md", "old content")] "/vault" "notes" "My Note!"
          "new content").2
        = noteCreationPath "/vault" "notes" "My Note!" ∧
    (noteCreationPath "/vault" "notes" "My Note!", "new content")
        ∈ (createNoteRun [("/vault/notes/my-note.md", "old content")] "/vault" "notes" "My Note!"
            "new content").1 ∧
    (¬ "old content" = "new content" →
      ¬ (noteCreationPath "/vault" "notes" "My Note!", "old content")
          ∈ (createNoteRun [("/vault/notes/my-note.md", "old content")] "/vault" "notes"
              "My Note!" "new content").1) ∧
    (createNoteRun [("/vault/notes/my-note.md", "old content")] "/vault" "notes" "My Note!"
          "new content").1.map Prod.fst
        = [("/vault/notes/my-note.md", "old content")].map Prod.fst) :=
  ⟨by decide,
   claimC10_theorem [("/vault/notes/my-note.md", "old content")] "/vault" "notes" "My Note!"
     "old content" "new content" (by decide)⟩
